import Mathlib

/-!
Verification of the frame-gating and result-continuity pipeline of the
Talking Objects application.

The development shallowly embeds the algorithmic core of the repository:
the sliding-window `RateLimiter`, the bounded TTL `ResponseCache`, the
`FrameSimilarityDetector` (perceptual-hash similarity gate), the
`MotionDetector` (pixel-delta motion gate), the `ObjectDetector`
bounds estimation, and the `GeminiVision` response parsing and subject
transition check.  JavaScript numbers that hold integer quantities are
modelled as `Nat`/`Int`, exact fractions (ratios of counts) as `ℚ`, and
floating-point geometry as `ℝ`.  JavaScript `Map` objects are modelled as
insertion-ordered association lists with unique keys, matching the
iteration-order semantics the code relies on.  Fallible or possibly
diverging code paths return `Option`.
-/

/-! ## RateLimiter (src/utils/cache.js)

State: `requests`, the ordered list of admitted-request timestamps.
`canMakeRequest` first drops timestamps that have aged out of the trailing
window (the JS filter keeps `now - timestamp < timeWindow`), then admits and
appends `now` when the remaining count is below `maxRequests`, and otherwise
denies without appending.
-/

def inWindow (timeWindow now t : Nat) : Bool :=
  decide ((now : Int) - (t : Int) < (timeWindow : Int))

def canMakeRequest (maxRequests timeWindow now : Nat) (requests : List Nat) :
    Bool × List Nat :=
  let active := requests.filter (inWindow timeWindow now)
  if maxRequests ≤ active.length then
    (false, active)
  else
    (true, active ++ [now])

/-- Run the rate limiter over a list of successive call instants, collecting
the per-call verdicts and the final timestamp list. -/
def rlRun (maxRequests timeWindow : Nat) (requests : List Nat) :
    List Nat → List Bool × List Nat
  | [] => ([], requests)
  | t :: rest =>
    let step := canMakeRequest maxRequests timeWindow t requests
    let tail := rlRun maxRequests timeWindow step.2 rest
    (step.1 :: tail.1, tail.2)

lemma canMakeRequest_admit (maxRequests timeWindow now : Nat) (requests : List Nat)
    (h : (requests.filter
        (inWindow timeWindow now)).length < maxRequests) :
    canMakeRequest maxRequests timeWindow now requests =
      (true, requests.filter
        (inWindow timeWindow now) ++ [now]) := by
  unfold canMakeRequest
  rw [if_neg (by omega)]

lemma canMakeRequest_deny (maxRequests timeWindow now : Nat) (requests : List Nat)
    (h : maxRequests ≤ (requests.filter
        (inWindow timeWindow now)).length) :
    canMakeRequest maxRequests timeWindow now requests =
      (false, requests.filter
        (inWindow timeWindow now)) := by
  unfold canMakeRequest
  rw [if_pos h]

/-- When every pending call instant and every stored timestamp lies at or
after a base instant `t0`, and every pending instant is within the window of
`t0`, no stored timestamp ever ages out, so the limiter admits exactly until
its stored count reaches the ceiling. -/
lemma rlRun_cluster (maxRequests timeWindow : Nat) :
    ∀ (times : List Nat) (requests : List Nat) (t0 : Nat),
    requests.length ≤ maxRequests →
    (∀ s ∈ requests, t0 ≤ s) →
    (∀ t ∈ times, t0 ≤ t ∧ (t : Int) - (t0 : Int) < (timeWindow : Int)) →
    (rlRun maxRequests timeWindow requests times).1 =
      (List.range times.length).map (fun i => decide (requests.length + i < maxRequests)) ∧
    (rlRun maxRequests timeWindow requests times).2.length
      = min (requests.length + times.length) maxRequests := by
  intro times
  induction times with
  | nil =>
    intro requests t0 hlen _ _
    simp [rlRun]
    omega
  | cons t rest ih =>
    intro requests t0 hlen hbase htimes
    have ht := htimes t (by simp)
    have hfilter : requests.filter (inWindow timeWindow t) = requests := by
      apply List.filter_eq_self.mpr
      intro s hs
      have h1 : t0 ≤ s := hbase s hs
      simp only [inWindow, decide_eq_true_eq]
      omega
    by_cases hfull : requests.length < maxRequests
    · have hstep : canMakeRequest maxRequests timeWindow t requests
          = (true, requests ++ [t]) := by
        have := canMakeRequest_admit maxRequests timeWindow t requests
          (by rw [hfilter]; exact hfull)
        rw [hfilter] at this
        exact this
      have hrec := ih (requests ++ [t]) t0
        (by simp; omega)
        (by intro s hs
            rcases List.mem_append.mp hs with h | h
            · exact hbase s h
            · simp at h; omega)
        (by intro u hu; exact htimes u (by simp [hu]))
      simp only [rlRun, hstep]
      constructor
      · rw [hrec.1]
        simp only [List.length_cons]
        rw [List.range_succ_eq_map]
        simp only [List.map_cons, List.map_map]
        congr 1
        · simp
          omega
        · apply List.map_congr_left
          intro i _
          simp only [Function.comp]
          congr 1
          simp
          omega
      · rw [hrec.2]
        simp
        omega
    · have hmax : requests.length = maxRequests := by omega
      have hstep : canMakeRequest maxRequests timeWindow t requests
          = (false, requests) := by
        have := canMakeRequest_deny maxRequests timeWindow t requests
          (by rw [hfilter]; omega)
        rw [hfilter] at this
        exact this
      have hrec := ih requests t0 hlen hbase
        (by intro u hu; exact htimes u (by simp [hu]))
      simp only [rlRun, hstep]
      constructor
      · rw [hrec.1]
        simp only [List.length_cons]
        rw [List.range_succ_eq_map]
        simp only [List.map_cons, List.map_map]
        congr 1
        · simp
          omega
        · apply List.map_congr_left
          intro i _
          simp only [Function.comp]
          congr 1
          simp
          omega
      · rw [hrec.2]
        omega

/-- Claim C1: for every `RateLimiter` with ceiling `maxRequests` and trailing
window `timeWindow`, `canMakeRequest` admits exactly `maxRequests` calls made
within a trailing window of `timeWindow` duration (starting from an empty
limiter, call `i` is admitted exactly when `i < maxRequests`), denies a call
made while the window still holds `maxRequests` timestamps without appending
a new timestamp, and admits again once the full window has elapsed since the
oldest stored request timestamp. -/
theorem rateLimiter_window_admission :
    ∀ (maxRequests timeWindow : Nat),
    (∀ (times : List Nat) (t0 : Nat),
      (∀ t ∈ times, t0 ≤ t ∧ (t : Int) - (t0 : Int) < (timeWindow : Int)) →
      (rlRun maxRequests timeWindow [] times).1 =
        (List.range times.length).map (fun i => decide (i < maxRequests))) ∧
    (∀ (now : Nat) (requests : List Nat),
      maxRequests ≤ (requests.filter
        (inWindow timeWindow now)).length →
      canMakeRequest maxRequests timeWindow now requests =
        (false, requests.filter
          (inWindow timeWindow now))) ∧
    (∀ (now oldest : Nat) (rest : List Nat),
      rest.length < maxRequests →
      (timeWindow : Int) ≤ (now : Int) - (oldest : Int) →
      (canMakeRequest maxRequests timeWindow now (oldest :: rest)).1 = true) := by
  intro maxRequests timeWindow
  refine ⟨?_, ?_, ?_⟩
  · intro times t0 htimes
    have := (rlRun_cluster maxRequests timeWindow times [] t0
      (by simp) (by simp) htimes).1
    simpa using this
  · intro now requests h
    exact canMakeRequest_deny maxRequests timeWindow now requests h
  · intro now oldest rest hlen hwin
    unfold canMakeRequest
    have hdrop : (oldest :: rest).filter
        (inWindow timeWindow now)
        = rest.filter (inWindow timeWindow now) := by
      simp only [List.filter_cons]
      rw [if_neg]
      simp only [inWindow, decide_eq_true_eq]
      omega
    rw [hdrop]
    have hlt : ¬ maxRequests ≤ (rest.filter (inWindow timeWindow now)).length := by
      have := rest.length_filter_le (inWindow timeWindow now)
      omega
    rw [if_neg hlt]

/-- Concrete instance of claim C1: with ceiling 2 and window 10, the calls at
instants 0, 1, 2 are decided admit, admit, deny, and a later call at
instant 10 (a full window after the oldest stored timestamp 0) is admitted
again. -/
theorem rateLimiter_window_admission_witness :
    (rlRun 2 10 [] [0, 1, 2]).1 = [true, true, false] ∧
    (canMakeRequest 2 10 10 [0, 1]).1 = true := by
  have h := rateLimiter_window_admission 2 10
  constructor
  · have := h.1 [0, 1, 2] 0 (by decide)
    simpa using this
  · exact h.2.2 10 0 [1] (by decide) (by decide)

/-! ## ResponseCache (src/utils/cache.js)

A JavaScript `Map` keeps insertion order; `set` on an existing key updates
in place without changing the order, and `cache.keys().next().value` is the
oldest-inserted key.  The cache is modelled as an insertion-ordered
association list of `(key, data, timestamp)` triples (oldest first).  Key
derivation (`generateKey`) hashes sampled image bytes outside the cited
store operations; the store is studied at key granularity.
-/

/-- JS `Map.prototype.set`: update in place when the key is present
(preserving its position), otherwise append at the end (newest). -/
def jsMapSet {V : Type} (m : List (Nat × V × Nat)) (k : Nat) (v : V) (ts : Nat) :
    List (Nat × V × Nat) :=
  if m.any (fun e => e.1 = k) then
    m.map (fun e => if e.1 = k then (k, v, ts) else e)
  else
    m ++ [(k, v, ts)]

/-- JS `Map.prototype.get` as used with unique keys. -/
def mapLookup {V : Type} (m : List (Nat × V × Nat)) (k : Nat) : Option (V × Nat) :=
  (m.find? (fun e => e.1 = k)).map (fun e => e.2)

/-- JS `Map.prototype.delete` on a map with unique keys. -/
def mapDelete {V : Type} (m : List (Nat × V × Nat)) (k : Nat) : List (Nat × V × Nat) :=
  m.filter (fun e => ¬ e.1 = k)

/-- `ResponseCache.get`: a hit older than the TTL (age strictly exceeding it)
is dropped and reported as a miss; otherwise the stored data is returned and
the store is untouched. -/
def cacheGet {V : Type} (ttl now : Nat) (m : List (Nat × V × Nat)) (k : Nat) :
    Option V × List (Nat × V × Nat) :=
  match mapLookup m k with
  | none => (none, m)
  | some (v, ts) =>
    if (ttl : Int) < (now : Int) - (ts : Int) then
      (none, mapDelete m k)
    else
      (some v, m)

/-- `ResponseCache.set`: when the store is already at capacity, the
oldest-inserted entry (the head) is deleted, then the new entry is stored
with a fresh timestamp. -/
def cacheSet {V : Type} (maxSize now : Nat) (m : List (Nat × V × Nat))
    (k : Nat) (v : V) : List (Nat × V × Nat) :=
  jsMapSet (if maxSize ≤ m.length then m.tail else m) k v now

/-- A client-visible cache operation: a keyed read at some instant or a keyed
write of a payload at some instant. -/
inductive CacheOp (V : Type) where
  | get (k now : Nat)
  | set (k : Nat) (v : V) (now : Nat)

/-- Run a sequence of cache operations against a store. -/
def runOps {V : Type} (maxSize ttl : Nat) (ops : List (CacheOp V))
    (m : List (Nat × V × Nat)) : List (Nat × V × Nat) :=
  ops.foldl
    (fun acc op =>
      match op with
      | CacheOp.get k now => (cacheGet ttl now acc k).2
      | CacheOp.set k v now => cacheSet maxSize now acc k v)
    m

/-- Insert a list of `(key, data, timestamp)` triples in order. -/
def insertSeq {V : Type} (maxSize : Nat) (m : List (Nat × V × Nat))
    (items : List (Nat × V × Nat)) : List (Nat × V × Nat) :=
  items.foldl (fun acc it => cacheSet maxSize it.2.2 acc it.1 it.2.1) m

lemma jsMapSet_length {V : Type} (m : List (Nat × V × Nat)) (k : Nat) (v : V) (ts : Nat) :
    (jsMapSet m k v ts).length ≤ m.length + 1 := by
  unfold jsMapSet
  split
  · simp
  · simp

lemma cacheSet_length {V : Type} (maxSize now : Nat) (m : List (Nat × V × Nat))
    (k : Nat) (v : V) (hmax : 1 ≤ maxSize) (hm : m.length ≤ maxSize) :
    (cacheSet maxSize now m k v).length ≤ maxSize := by
  unfold cacheSet
  by_cases h : maxSize ≤ m.length
  · rw [if_pos h]
    have h1 : m.length = maxSize := by omega
    have h2 : m.tail.length = maxSize - 1 := by
      simp [h1]
    have := jsMapSet_length m.tail k v now
    omega
  · rw [if_neg h]
    have := jsMapSet_length m k v now
    omega

lemma cacheGet_length {V : Type} (ttl now : Nat) (m : List (Nat × V × Nat)) (k : Nat) :
    ((cacheGet ttl now m k).2).length ≤ m.length := by
  unfold cacheGet
  rcases h : mapLookup m k with _ | ⟨v, ts⟩
  · simp
  · dsimp only
    split
    · exact m.length_filter_le _
    · simp

lemma runOps_length {V : Type} (maxSize ttl : Nat) (hmax : 1 ≤ maxSize) :
    ∀ (ops : List (CacheOp V)) (m : List (Nat × V × Nat)),
    m.length ≤ maxSize → (runOps maxSize ttl ops m).length ≤ maxSize := by
  intro ops
  induction ops with
  | nil => intro m hm; simpa [runOps] using hm
  | cons op rest ih =>
    intro m hm
    rcases op with ⟨k, now⟩ | ⟨k, v, now⟩
    · have hstep := cacheGet_length (V := V) ttl now m k
      have hrw : runOps maxSize ttl (CacheOp.get k now :: rest) m
          = runOps maxSize ttl rest (cacheGet ttl now m k).2 := rfl
      rw [hrw]
      exact ih _ (by omega)
    · have hrw : runOps maxSize ttl (CacheOp.set k v now :: rest) m
          = runOps maxSize ttl rest (cacheSet maxSize now m k v) := rfl
      rw [hrw]
      exact ih _ (cacheSet_length maxSize now m k v hmax hm)

lemma cacheSet_evict {V : Type} (maxSize now : Nat) (m : List (Nat × V × Nat))
    (k : Nat) (v : V) (hfull : m.length = maxSize)
    (hfresh : ∀ e ∈ m, e.1 ≠ k) :
    cacheSet maxSize now m k v = m.tail ++ [(k, v, now)] := by
  unfold cacheSet
  rw [if_pos (by omega)]
  unfold jsMapSet
  rw [if_neg]
  simp only [List.any_eq_true, decide_eq_true_eq, not_exists, not_and]
  intro e he
  exact hfresh e (List.mem_of_mem_tail he)

lemma insertSeq_fresh {V : Type} (maxSize : Nat) :
    ∀ (items : List (Nat × V × Nat)) (m : List (Nat × V × Nat)),
    m.length + items.length ≤ maxSize →
    (∀ it ∈ items, ∀ e ∈ m, e.1 ≠ it.1) →
    (items.map (fun e => e.1)).Nodup →
    insertSeq maxSize m items = m ++ items := by
  intro items
  induction items with
  | nil => intro m _ _ _; simp [insertSeq]
  | cons it rest ih =>
    intro m hlen hfresh hnodup
    have hstep : cacheSet maxSize it.2.2 m it.1 it.2.1 = m ++ [it] := by
      unfold cacheSet
      rw [if_neg (by simp at hlen; omega)]
      unfold jsMapSet
      rw [if_neg]
      simp only [List.any_eq_true, decide_eq_true_eq, not_exists, not_and]
      intro e he
      exact hfresh it (by simp) e he
    have hrec := ih (m ++ [it])
      (by simp at hlen ⊢; omega)
      (by intro u hu e he
          rcases List.mem_append.mp he with h | h
          · exact hfresh u (by simp [hu]) e h
          · simp at h
            subst h
            simp only [List.map_cons, List.nodup_cons] at hnodup
            intro hcontra
            exact hnodup.1 (hcontra ▸ List.mem_map_of_mem (fun e => e.1) hu))
      (by simp only [List.map_cons, List.nodup_cons] at hnodup
          exact hnodup.2)
    have hunfold : insertSeq maxSize m (it :: rest)
        = insertSeq maxSize (cacheSet maxSize it.2.2 m it.1 it.2.1) rest := rfl
    rw [hunfold, hstep, hrec]
    simp

lemma mapLookup_delete {V : Type} (m : List (Nat × V × Nat)) (k : Nat) :
    mapLookup (mapDelete m k) k = none := by
  unfold mapLookup mapDelete
  rw [List.find?_eq_none.mpr]
  · rfl
  · intro e he
    have := (List.mem_filter.mp he).2
    simp only [decide_not, Bool.not_eq_true', decide_eq_false_iff_not] at this
    simp [this]

/-- Claim C2: for a `ResponseCache` with capacity `maxSize ≥ 1`, (i) after any
sequence of `set`/`get` operations starting from an empty store, the store
holds at most `maxSize` entries; (ii) a `set` of a fresh key on a store at
capacity evicts exactly the oldest-inserted entry (the head) and appends the
new one; (iii) inserting `maxSize + 1` entries with pairwise distinct keys
into an empty store leaves exactly the entries after the first, i.e. evicts
exactly the first-inserted entry. -/
theorem responseCache_bounded_eviction :
    ∀ (V : Type) (maxSize ttl : Nat), 1 ≤ maxSize →
    (∀ (ops : List (CacheOp V)), (runOps maxSize ttl ops []).length ≤ maxSize) ∧
    (∀ (m : List (Nat × V × Nat)) (k : Nat) (v : V) (now : Nat),
      m.length = maxSize → (∀ e ∈ m, e.1 ≠ k) →
      cacheSet maxSize now m k v = m.tail ++ [(k, v, now)]) ∧
    (∀ (items : List (Nat × V × Nat)),
      items.length = maxSize + 1 → (items.map (fun e => e.1)).Nodup →
      insertSeq maxSize [] items = items.tail) := by
  intro V maxSize ttl hmax
  refine ⟨?_, ?_, ?_⟩
  · intro ops
    exact runOps_length maxSize ttl hmax ops [] (by simp)
  · intro m k v now hfull hfresh
    exact cacheSet_evict maxSize now m k v hfull hfresh
  · intro items hlen hnodup
    rcases items with _ | ⟨a, rest⟩
    · simp at hlen
    · have hrestlen : rest.length = maxSize := by
        simpa using hlen
      have hsplit : rest.take (maxSize - 1) ++ rest.drop (maxSize - 1) = rest :=
        List.take_append_drop _ _
      have hdroplen : (rest.drop (maxSize - 1)).length = 1 := by
        simp [hrestlen]
        omega
      obtain ⟨z, hz⟩ := List.length_eq_one.mp hdroplen
      simp only [List.map_cons, List.nodup_cons] at hnodup
      have hnodup_rest : (rest.map (fun e => e.1)).Nodup := hnodup.2
      have ha_not : a.1 ∉ rest.map (fun e => e.1) := hnodup.1
      have hfirst : insertSeq maxSize [] (a :: rest.take (maxSize - 1))
          = a :: rest.take (maxSize - 1) := by
        have := insertSeq_fresh maxSize (a :: rest.take (maxSize - 1)) []
          (by simp
              have := rest.length_take_le (maxSize - 1)
              omega)
          (by intro u _ e he; simp at he)
          (by simp only [List.map_cons, List.nodup_cons]
              constructor
              · intro hmem
                exact ha_not (List.mem_map.mpr
                  (by obtain ⟨u, hu, hue⟩ := List.mem_map.mp hmem
                      exact ⟨u, List.mem_of_mem_take hu, hue⟩))
              · exact List.Nodup.sublist
                  (List.Sublist.map (fun e => e.1) (rest.take_sublist (maxSize - 1)))
                  hnodup_rest)
        simpa using this
      have hfold : insertSeq maxSize [] (a :: rest)
          = insertSeq maxSize (insertSeq maxSize [] (a :: rest.take (maxSize - 1))) [z] := by
        unfold insertSeq
        rw [show (a :: rest) = (a :: rest.take (maxSize - 1)) ++ [z] by
          rw [List.cons_append]
          congr 1
          conv_lhs => rw [← hsplit, hz]]
        rw [List.foldl_append]
      rw [hfold, hfirst]
      have hz_mem : z ∈ rest := by
        have : z ∈ rest.drop (maxSize - 1) := by simp [hz]
        exact List.mem_of_mem_drop this
      have hkeys_disjoint : ∀ e ∈ a :: rest.take (maxSize - 1), e.1 ≠ z.1 := by
        intro e he
        rcases List.mem_cons.mp he with h | h
        · subst h
          intro hcontra
          exact ha_not (hcontra ▸ List.mem_map_of_mem (fun e => e.1) hz_mem)
        · intro hcontra
          have hmaps : (rest.map (fun e => e.1)) =
              (rest.take (maxSize - 1)).map (fun e => e.1)
              ++ (rest.drop (maxSize - 1)).map (fun e => e.1) := by
            rw [← List.map_append, hsplit]
          have hdisj := (List.nodup_append.mp (hmaps ▸ hnodup_rest)).2.2
          exact hdisj (List.mem_map_of_mem (fun e => e.1) h)
            (by rw [hz]; simp [hcontra])
      have hlen_full : (a :: rest.take (maxSize - 1)).length = maxSize := by
        simp [hrestlen]
        omega
      have hev := cacheSet_evict maxSize z.2.2 (a :: rest.take (maxSize - 1))
        z.1 z.2.1 hlen_full hkeys_disjoint
      have : insertSeq maxSize (a :: rest.take (maxSize - 1)) [z]
          = cacheSet maxSize z.2.2 (a :: rest.take (maxSize - 1)) z.1 z.2.1 := by
        unfold insertSeq
        simp
      rw [this, hev]
      simp only [List.tail_cons]
      have hzeta : ((z.1, z.2.1, z.2.2) : Nat × V × Nat) = z := rfl
      rw [hzeta]
      conv_rhs => rw [← hsplit, hz]

/-- Concrete instance of claim C2: with capacity 2, a set-set-get-set sequence
leaves at most 2 entries, and inserting the three distinct keys 1, 2, 3 into
an empty cache of capacity 2 evicts exactly the first-inserted entry. -/
theorem responseCache_bounded_eviction_witness :
    (runOps 2 300 [CacheOp.set 1 (10 : Nat) 0, CacheOp.set 2 20 1,
      CacheOp.get 1 2, CacheOp.set 3 30 2] []).length ≤ 2 ∧
    insertSeq 2 [] [(1, (10 : Nat), 0), (2, 20, 1), (3, 30, 2)]
      = [(2, 20, 1), (3, 30, 2)] := by
  have h := responseCache_bounded_eviction Nat 2 300 (by omega)
  constructor
  · exact h.1 _
  · have := h.2.2 [(1, (10 : Nat), 0), (2, 20, 1), (3, 30, 2)] (by simp) (by decide)
    simpa using this

/-- Claim C3: for an entry `(k, v, ts)` present in the store, a `get` at an
instant whose elapsed time since `ts` strictly exceeds the TTL reports a miss
and removes the entry, while a `get` within the TTL returns the stored data
and leaves the store unchanged. -/
theorem responseCache_ttl_expiry :
    ∀ (V : Type) (ttl now k : Nat) (m : List (Nat × V × Nat)) (v : V) (ts : Nat),
    mapLookup m k = some (v, ts) →
    (((ttl : Int) < (now : Int) - (ts : Int) →
      cacheGet ttl now m k = (none, mapDelete m k) ∧
      mapLookup ((cacheGet ttl now m k).2) k = none) ∧
    ((now : Int) - (ts : Int) ≤ (ttl : Int) →
      cacheGet ttl now m k = (some v, m))) := by
  intro V ttl now k m v ts hfound
  constructor
  · intro hexp
    have hres : cacheGet ttl now m k = (none, mapDelete m k) := by
      unfold cacheGet
      rw [hfound]
      dsimp only
      rw [if_pos hexp]
    refine ⟨hres, ?_⟩
    rw [hres]
    exact mapLookup_delete m k
  · intro hfresh
    unfold cacheGet
    rw [hfound]
    dsimp only
    rw [if_neg (by omega)]

/-- Concrete instance of claim C3: with TTL 3, the entry for key 5 stored at
instant 10 is dropped by a read at instant 20 and returned intact by a read
at instant 12. -/
theorem responseCache_ttl_expiry_witness :
    cacheGet 3 20 [(5, (42 : Nat), 10)] 5 = (none, []) ∧
    cacheGet 3 12 [(5, (42 : Nat), 10)] 5 = (some 42, [(5, 42, 10)]) := by
  have h := responseCache_ttl_expiry Nat 3 20 5 [(5, (42 : Nat), 10)] 42 10 (by decide)
  have h2 := responseCache_ttl_expiry Nat 3 12 5 [(5, (42 : Nat), 10)] 42 10 (by decide)
  constructor
  · have := (h.1 (by decide)).1
    simpa [mapDelete] using this
  · exact h2.2 (by decide)

/-! ## MotionDetector (motionDetector module)

`detectMotion` receives the downsampled frame drawn on the working canvas
(capture and downsampling are external camera/canvas collaborators).  A frame
is the RGBA pixel buffer; `compareFrames` walks the flat byte array with a
stride of 4, i.e. it reads exactly the red channel of every pixel.  Both
frames come from the same fixed-size canvas, so corresponding buffers have
equal length.
-/

structure Pixel where
  r : Nat
  g : Nat
  b : Nat
  a : Nat

/-- Single-channel absolute delta of a pixel pair (red channel only). -/
def pixelDiff (c p : Pixel) : Nat :=
  ((c.r : Int) - (p.r : Int)).natAbs

/-- Number of pixels whose red-channel delta strictly exceeds the threshold. -/
def changedPixelCount (threshold : Nat) (current previous : List Pixel) : Nat :=
  ((current.zip previous).filter (fun cp => threshold < pixelDiff cp.1 cp.2)).length

/-- Sum of the red-channel deltas over all pixels. -/
def totalChange (current previous : List Pixel) : Nat :=
  ((current.zip previous).map (fun cp => pixelDiff cp.1 cp.2)).sum

/-- `MotionDetector.compareFrames`: motion is reported when the changed-pixel
fraction strictly exceeds `minChangedPixels` or the mean absolute delta per
pixel strictly exceeds the hard-coded mean-delta threshold 25. -/
def compareFrames (threshold : Nat) (minChangedPixels : ℚ)
    (current previous : List Pixel) : Bool :=
  let totalPixels : ℚ := (current.length : ℚ)
  decide (minChangedPixels < (changedPixelCount threshold current previous : ℚ) / totalPixels)
  || decide ((25 : ℚ) < (totalChange current previous : ℚ) / totalPixels)

structure MotionState where
  previousFrame : Option (List Pixel)

/-- `MotionDetector.detectMotion`: the first evaluated frame is treated as
motion and stored as the baseline; afterwards the current frame is compared
against the stored baseline, and the baseline is replaced by the current
frame regardless of the verdict. -/
def detectMotion (threshold : Nat) (minChangedPixels : ℚ)
    (st : MotionState) (frame : List Pixel) : Bool × MotionState :=
  match st.previousFrame with
  | none => (true, ⟨some frame⟩)
  | some prev => (compareFrames threshold minChangedPixels frame prev, ⟨some frame⟩)

/-- Claim C4: `detectMotion` returns true on the first call after
construction or `reset()` and stores the frame as baseline; a later call
returns true exactly when the fraction of pixels whose single-channel delta
exceeds the pixel threshold is greater than `minChangedPixels` or the mean
absolute delta per pixel exceeds the mean-delta threshold 25, and it always
replaces the baseline with the current frame. -/
theorem motionGate_first_true_then_thresholds :
    ∀ (threshold : Nat) (minChangedPixels : ℚ),
    (∀ (frame : List Pixel),
      detectMotion threshold minChangedPixels ⟨none⟩ frame = (true, ⟨some frame⟩)) ∧
    (∀ (prev frame : List Pixel), prev.length = frame.length →
      (detectMotion threshold minChangedPixels ⟨some prev⟩ frame).2 = ⟨some frame⟩ ∧
      ((detectMotion threshold minChangedPixels ⟨some prev⟩ frame).1 = true ↔
        (minChangedPixels <
            (changedPixelCount threshold frame prev : ℚ) / (frame.length : ℚ) ∨
          (25 : ℚ) < (totalChange frame prev : ℚ) / (frame.length : ℚ)))) := by
  intro threshold minChangedPixels
  constructor
  · intro frame
    rfl
  · intro prev frame _
    constructor
    · rfl
    · show (compareFrames threshold minChangedPixels frame prev = true) ↔ _
      unfold compareFrames
      rw [Bool.or_eq_true, decide_eq_true_eq, decide_eq_true_eq]

/-- Concrete instance of claim C4: with threshold 30 and minimum changed
fraction 5%, feeding the same all-gray 4-by-4 frame twice yields motion on
the first call and no motion on the second. -/
theorem motionGate_first_true_then_thresholds_witness :
    (detectMotion 30 (1 / 20) ⟨none⟩ (List.replicate 16 ⟨128, 128, 128, 255⟩)).1 = true ∧
    (detectMotion 30 (1 / 20) ⟨some (List.replicate 16 ⟨128, 128, 128, 255⟩)⟩
      (List.replicate 16 ⟨128, 128, 128, 255⟩)).1 = false := by
  have h := motionGate_first_true_then_thresholds 30 (1 / 20)
  constructor
  · rw [h.1 (List.replicate 16 ⟨128, 128, 128, 255⟩)]
  · have h2 := (h.2 (List.replicate 16 ⟨128, 128, 128, 255⟩)
      (List.replicate 16 ⟨128, 128, 128, 255⟩) rfl).2
    have hnot : ¬ ((1 / 20 : ℚ) <
        (changedPixelCount 30 (List.replicate 16 ⟨128, 128, 128, 255⟩)
          (List.replicate 16 ⟨128, 128, 128, 255⟩) : ℚ) / ((List.replicate 16
            (Pixel.mk 128 128 128 255)).length : ℚ) ∨
        (25 : ℚ) < (totalChange (List.replicate 16 ⟨128, 128, 128, 255⟩)
          (List.replicate 16 ⟨128, 128, 128, 255⟩) : ℚ) / ((List.replicate 16
            (Pixel.mk 128 128 128 255)).length : ℚ)) := by
      rw [show changedPixelCount 30 (List.replicate 16 ⟨128, 128, 128, 255⟩)
          (List.replicate 16 ⟨128, 128, 128, 255⟩) = 0 from rfl]
      rw [show totalChange (List.replicate 16 ⟨128, 128, 128, 255⟩)
          (List.replicate 16 ⟨128, 128, 128, 255⟩) = 0 from rfl]
      norm_num
    rcases hb : (detectMotion 30 (1 / 20) ⟨some (List.replicate 16 ⟨128, 128, 128, 255⟩)⟩
        (List.replicate 16 ⟨128, 128, 128, 255⟩)).1 with _ | _
    · rfl
    · exact absurd (h2.mp hb) hnot

/-! ## FrameSimilarityDetector (src/utils/cache.js)

A frame reaches the detector as a data-URL string; `calculateHash` takes
`imageData.split(',')[1]` — the segment between the first comma and the next
comma or the end of the string — and samples it at the stride
`Math.floor(base64.length / 100)`.  The JS `for` loop `i += step` never
advances when the stride is 0 and the payload is non-empty, so the sampling
loop is modelled with explicit fuel and an `Option` result: `none` stands
for a computation that never completes (or, for `payloadOf`, for the JS
`TypeError` on a string with no comma).  JS falsiness of the stored hash
(`null` or the empty string) is modelled by `hashFalsy`.
-/

/-- The `split(',')[1]` payload of a data-URL string: the segment between
the first comma and the following comma or end; absent when the string has
no comma. -/
def payloadOf (imageData : List Char) : Option (List Char) :=
  if imageData.any (fun c => c = ',') then
    some (((imageData.dropWhile (fun c => ¬ c = ',')).drop 1).takeWhile (fun c => ¬ c = ','))
  else
    none

/-- The character-sampling loop of `calculateHash`, with explicit fuel:
starting at index `i`, append `base64[i]` and advance by `step` while
`i < base64.length`.  Returns `none` when the fuel runs out before the
index leaves the string. -/
def sampleLoop (s : List Char) (step : Nat) : Nat → Nat → Option (List Char)
  | 0, i => if i < s.length then none else some []
  | fuel + 1, i =>
    if i < s.length then
      (sampleLoop s step fuel (i + step)).map (fun t => s.getD i 'A' :: t)
    else
      some []

/-- `FrameSimilarityDetector.calculateHash`.  `s.length + 1` units of fuel
suffice whenever the stride is at least 1, so the result is `none` exactly
on the inputs where the JS loop diverges (and on strings with no comma,
where the JS code throws). -/
def calculateHash (imageData : List Char) : Option (List Char) :=
  match payloadOf imageData with
  | none => none
  | some b64 => sampleLoop b64 (b64.length / 100) (b64.length + 1) 0

/-- `FrameSimilarityDetector.calculateSimilarity`: 0 when either hash is
falsy (empty) or the lengths differ, else the fraction of positions holding
equal characters. -/
def calculateSimilarity (hash1 hash2 : List Char) : ℚ :=
  if hash1 = [] ∨ hash2 = [] ∨ ¬ hash1.length = hash2.length then 0
  else (((hash1.zip hash2).filter (fun cp => cp.1 = cp.2)).length : ℚ) / (hash1.length : ℚ)

structure SimState where
  previousFrameHash : Option (List Char)

/-- JS falsiness of `this.previousFrameHash`: `null` or the empty string. -/
def hashFalsy : Option (List Char) → Bool
  | none => true
  | some h => h = []

/-- `FrameSimilarityDetector.isSimilar`: hash the frame; on a falsy stored
hash, store and report not-similar; otherwise compare, store the current
hash, and report whether the similarity reached the threshold.  `none`
models a call that throws or diverges inside `calculateHash`. -/
def isSimilar (threshold : ℚ) (st : SimState) (imageData : List Char) :
    Option (Bool × SimState) :=
  match calculateHash imageData with
  | none => none
  | some currentHash =>
    if hashFalsy st.previousFrameHash then
      some (false, ⟨some currentHash⟩)
    else
      if threshold ≤ calculateSimilarity (st.previousFrameHash.getD []) currentHash then
        some (true, ⟨some currentHash⟩)
      else
        some (false, ⟨some currentHash⟩)

lemma sampleLoop_total (s : List Char) (step : Nat) (_hstep : 1 ≤ step) :
    ∀ (fuel i : Nat), s.length ≤ i + fuel * step →
    ∃ r, sampleLoop s step fuel i = some r := by
  intro fuel
  induction fuel with
  | zero =>
    intro i hi
    refine ⟨[], ?_⟩
    unfold sampleLoop
    rw [if_neg (by omega)]
  | succ fuel ih =>
    intro i hi
    by_cases hlt : i < s.length
    · obtain ⟨r, hr⟩ := ih (i + step) (by
        have : (fuel + 1) * step = step + fuel * step := by ring
        omega)
      refine ⟨s.getD i 'A' :: r, ?_⟩
      unfold sampleLoop
      rw [if_pos hlt, hr]
      rfl
    · refine ⟨[], ?_⟩
      unfold sampleLoop
      rw [if_neg hlt]

lemma sampleLoop_stuck (s : List Char) :
    ∀ (fuel i : Nat), i < s.length → sampleLoop s 0 fuel i = none := by
  intro fuel
  induction fuel with
  | zero =>
    intro i hi
    unfold sampleLoop
    rw [if_pos hi]
  | succ fuel ih =>
    intro i hi
    unfold sampleLoop
    rw [if_pos hi]
    rw [show i + 0 = i from rfl, ih i hi]
    rfl

lemma calculateHash_some_iff (imageData b64 : List Char)
    (hpayload : payloadOf imageData = some b64) :
    (calculateHash imageData).isSome ↔ (b64.length = 0 ∨ 100 ≤ b64.length) := by
  unfold calculateHash
  rw [hpayload]
  dsimp only
  constructor
  · intro hsome
    by_contra hcon
    push_neg at hcon
    have h1 : 1 ≤ b64.length := by omega
    have h2 : b64.length / 100 = 0 := Nat.div_eq_of_lt (by omega)
    rw [h2] at hsome
    rw [sampleLoop_stuck b64 (b64.length + 1) 0 (by omega)] at hsome
    simp at hsome
  · intro hlen
    rcases hlen with h0 | h100
    · rw [h0]
      have hsl : sampleLoop b64 0 1 0 = some [] := by
        unfold sampleLoop
        rw [if_neg (by omega)]
      rw [show (0 : Nat) / 100 = 0 from rfl, show (0 : Nat) + 1 = 1 from rfl, hsl]
      rfl
    · have hstep : 1 ≤ b64.length / 100 :=
        (Nat.one_le_div_iff (by norm_num)).mpr h100
      obtain ⟨r, hr⟩ := sampleLoop_total b64 (b64.length / 100) hstep (b64.length + 1) 0
        (by
          have := Nat.le_mul_of_pos_right (b64.length + 1) (by omega : 0 < b64.length / 100)
          omega)
      rw [hr]
      rfl

lemma sampleLoop_head (s : List Char) (step fuel : Nat) (h0 : 0 < s.length)
    (r : List Char) (hr : sampleLoop s step (fuel + 1) 0 = some r) :
    ∃ t, r = s.getD 0 'A' :: t := by
  unfold sampleLoop at hr
  rw [if_pos h0] at hr
  rcases hmap : sampleLoop s step fuel (0 + step) with _ | t
  · rw [hmap] at hr
    rw [Option.map_none'] at hr
    exact Option.noConfusion hr
  · rw [hmap] at hr
    rw [Option.map_some'] at hr
    exact ⟨t, (Option.some.inj hr).symm⟩

lemma zip_self_filter_length :
    ∀ (h : List Char), ((h.zip h).filter (fun cp => cp.1 = cp.2)).length = h.length := by
  intro h
  induction h with
  | nil => rfl
  | cons a t ih =>
    simp only [List.zip_cons_cons, List.filter_cons]
    rw [if_pos (by simp)]
    simp only [List.length_cons]
    omega

lemma calculateSimilarity_self (h : List Char) (hne : ¬ h = []) :
    calculateSimilarity h h = 1 := by
  unfold calculateSimilarity
  rw [if_neg (by push_neg; exact ⟨hne, hne, rfl⟩)]
  rw [zip_self_filter_length h]
  have hlen : (h.length : ℚ) ≠ 0 := by
    simp only [ne_eq, Nat.cast_eq_zero]
    intro hcon
    exact hne (List.length_eq_zero.mp hcon)
  exact div_self hlen

/-- Claim C10: the fingerprint sampling loop terminates exactly when the
frame's encoded payload is empty or at least 100 characters long — for
payload lengths 1 through 99 the stride `length / 100` is 0 and the loop
never advances — and consequently `isSimilar` completes exactly under that
precondition on its input frame. -/
theorem similarityHash_terminates_iff :
    ∀ (p : List Char),
    ((∃ r, (∃ fuel, sampleLoop p (p.length / 100) fuel 0 = some r)) ↔
      (p.length = 0 ∨ 100 ≤ p.length)) ∧
    (∀ (threshold : ℚ) (st : SimState) (frame : List Char),
      payloadOf frame = some p →
      ((isSimilar threshold st frame).isSome ↔ (p.length = 0 ∨ 100 ≤ p.length))) := by
  intro p
  have hfix : ∀ (frame : List Char), payloadOf frame = some p →
      ((calculateHash frame).isSome ↔ (p.length = 0 ∨ 100 ≤ p.length)) :=
    fun frame h => calculateHash_some_iff frame p h
  constructor
  · constructor
    · rintro ⟨r, fuel, hr⟩
      by_contra hcon
      push_neg at hcon
      have h2 : p.length / 100 = 0 := Nat.div_eq_of_lt (by omega)
      rw [h2] at hr
      rw [sampleLoop_stuck p fuel 0 (by omega)] at hr
      exact Option.noConfusion hr
    · intro hlen
      rcases hlen with h0 | h100
      · refine ⟨[], 0, ?_⟩
        unfold sampleLoop
        rw [if_neg (by omega)]
      · have hstep : 1 ≤ p.length / 100 :=
          (Nat.one_le_div_iff (by norm_num)).mpr h100
        obtain ⟨r, hr⟩ := sampleLoop_total p (p.length / 100) hstep p.length 0
          (by
            have := Nat.le_mul_of_pos_right p.length (by omega : 0 < p.length / 100)
            omega)
        exact ⟨r, p.length, hr⟩
  · intro threshold st frame hpayload
    rw [← hfix frame hpayload]
    unfold isSimilar
    rcases hhash : calculateHash frame with _ | h
    · simp
    · dsimp only
      constructor
      · intro _
        rfl
      · intro _
        split
        · rfl
        · split
          · rfl
          · rfl

/-- Concrete instance of claim C10: a 100-character payload is sampled to
completion, a 50-character payload makes the loop spin forever (no amount of
fuel completes it), and `isSimilar` completes on a frame carrying the
100-character payload. -/
theorem similarityHash_terminates_iff_witness :
    (∃ r, (∃ fuel, sampleLoop (List.replicate 100 'A')
      ((List.replicate 100 'A').length / 100) fuel 0 = some r)) ∧
    ¬ (∃ r, (∃ fuel, sampleLoop (List.replicate 50 'A')
      ((List.replicate 50 'A').length / 100) fuel 0 = some r)) ∧
    (isSimilar (92 / 100) ⟨none⟩ (',' :: List.replicate 100 'A')).isSome = true := by
  refine ⟨?_, ?_, ?_⟩
  · exact (similarityHash_terminates_iff (List.replicate 100 'A')).1.mpr (by simp)
  · intro hcon
    have := (similarityHash_terminates_iff (List.replicate 50 'A')).1.mp hcon
    simp at this
  · exact ((similarityHash_terminates_iff (List.replicate 100 'A')).2 (92 / 100) ⟨none⟩
      (',' :: List.replicate 100 'A') (by rfl)).mpr (by simp)

/-- Claim C5 as stated is refuted by the degenerate frame whose payload is
empty: its hash is the empty string, which is falsy in JS, so the second
call takes the first-frame branch and returns `false` where the claim
demands `true`. -/
theorem similarityGate_identical_counterexample :
    isSimilar (92 / 100) ⟨none⟩ [','] = some (false, ⟨some []⟩) ∧
    isSimilar (92 / 100) ⟨some []⟩ [','] = some (false, ⟨some []⟩) := by
  constructor
  · rfl
  · rfl

/-- Claim C5 (amended): for identical frames whose encoded payload has at
least 100 characters (so that hashing terminates and the hash is non-empty),
the first `isSimilar` call after construction or reset returns `false` and a
second call with the identical frame returns `true` under the default
threshold 0.92. -/
theorem similarityGate_identical_frames :
    ∀ (frame p : List Char), payloadOf frame = some p → 100 ≤ p.length →
    ∃ h, calculateHash frame = some h ∧
      isSimilar (92 / 100) ⟨none⟩ frame = some (false, ⟨some h⟩) ∧
      isSimilar (92 / 100) ⟨some h⟩ frame = some (true, ⟨some h⟩) := by
  intro frame p hpayload hlen
  have hsome : (calculateHash frame).isSome :=
    (calculateHash_some_iff frame p hpayload).mpr (Or.inr hlen)
  obtain ⟨h, hh⟩ := Option.isSome_iff_exists.mp hsome
  have hshape : ∃ t, h = p.getD 0 'A' :: t := by
    have hh2 : sampleLoop p (p.length / 100) (p.length + 1) 0 = some h := by
      have := hh
      unfold calculateHash at this
      rw [hpayload] at this
      exact this
    exact sampleLoop_head p (p.length / 100) p.length (by omega) h hh2
  obtain ⟨t, ht⟩ := hshape
  have hne : ¬ h = [] := by
    rw [ht]
    simp
  refine ⟨h, hh, ?_, ?_⟩
  · unfold isSimilar
    rw [hh]
    dsimp only
    rw [if_pos (by rfl)]
  · unfold isSimilar
    rw [hh]
    dsimp only
    rw [if_neg (by simp [hashFalsy, hne])]
    rw [show (⟨some h⟩ : SimState).previousFrameHash.getD [] = h from rfl]
    rw [calculateSimilarity_self h hne]
    rw [if_pos (by norm_num)]

set_option maxRecDepth 10000 in
/-- Concrete instance of the amended claim C5: the frame whose payload is
100 copies of the character A is hashed to itself (stride 1), the first call
stores it and reports not-similar, and the identical second call reports
similar. -/
theorem similarityGate_identical_frames_witness :
    isSimilar (92 / 100) ⟨none⟩ (',' :: List.replicate 100 'A')
      = some (false, ⟨some (List.replicate 100 'A')⟩) ∧
    isSimilar (92 / 100) ⟨some (List.replicate 100 'A')⟩ (',' :: List.replicate 100 'A')
      = some (true, ⟨some (List.replicate 100 'A')⟩) := by
  obtain ⟨h, hh, h1, h2⟩ := similarityGate_identical_frames
    (',' :: List.replicate 100 'A') (List.replicate 100 'A') (by rfl) (by simp)
  have hhc : calculateHash (',' :: List.replicate 100 'A')
      = some (List.replicate 100 'A') := by rfl
  have he : h = List.replicate 100 'A' := Option.some.inj (hh.symm.trans hhc)
  subst he
  exact ⟨h1, h2⟩

/-- Claim C6: every completed `isSimilar` call stores the current frame's
fingerprint as the new comparison baseline, regardless of the verdict, so a
later comparison is always against the immediately preceding evaluated
frame. -/
theorem similarityGate_always_updates :
    ∀ (threshold : ℚ) (st : SimState) (frame : List Char) (v : Bool) (st2 : SimState),
    isSimilar threshold st frame = some (v, st2) →
    st2.previousFrameHash = calculateHash frame := by
  intro threshold st frame v st2 hcall
  unfold isSimilar at hcall
  rcases hhash : calculateHash frame with _ | h
  · rw [hhash] at hcall
    exact Option.noConfusion hcall
  · rw [hhash] at hcall
    dsimp only at hcall
    split at hcall
    · rw [(Prod.mk.inj (Option.some.inj hcall)).2.symm]
    · split at hcall
      · rw [(Prod.mk.inj (Option.some.inj hcall)).2.symm]
      · rw [(Prod.mk.inj (Option.some.inj hcall)).2.symm]

/-- Concrete instance of claim C6: after the comma-only frame is evaluated,
the stored fingerprint equals that frame's (empty) hash. -/
theorem similarityGate_always_updates_witness :
    (⟨some []⟩ : SimState).previousFrameHash = calculateHash [','] :=
  similarityGate_always_updates (92 / 100) ⟨none⟩ [','] false ⟨some []⟩ (by rfl)

/-! ## GeminiVision.isNewObject (src/utils/geminiAPI.js)

`isNewObject` returns true unconditionally when `this.currentObject` is
falsy (`null` or the empty string), and otherwise compares the two labels
after `str.replace(/[^\w\s]/gi, '').trim().toLowerCase()`.  The JS word
class is ASCII letters, digits and the underscore; the whitespace class is
modelled by its core members (space, tab, newline, carriage return), which
cover the label strings this application produces.
-/

/-- Membership in the JS regex word class `\w`: ASCII alphanumeric or
underscore. -/
def isWordChar (c : Char) : Bool :=
  (('a' ≤ c && c ≤ 'z') || ('A' ≤ c && c ≤ 'Z') || ('0' ≤ c && c ≤ '9') || c = '_')

/-- Core members of the JS regex whitespace class `\s`. -/
def isSpaceChar (c : Char) : Bool :=
  (c = ' ' || c = '\t' || c = '\n' || c = '\r')

/-- JS `String.prototype.trim`: drop leading and trailing whitespace. -/
def jsTrimChars (s : List Char) : List Char :=
  ((s.dropWhile isSpaceChar).reverse.dropWhile isSpaceChar).reverse

/-- The `normalize` closure of `isNewObject`:
`str.replace(/[^\w\s]/gi, '').trim().toLowerCase()`. -/
def normalizeLabel (s : String) : String :=
  String.mk ((jsTrimChars (s.toList.filter (fun c => isWordChar c || isSpaceChar c))).map
    Char.toLower)

/-- The normalization as worded by the claim: strip characters that are
neither alphanumeric nor whitespace (the underscore, being non-alphanumeric,
is stripped), then trim and case-fold. -/
def specNormalize (s : String) : String :=
  String.mk ((jsTrimChars (s.toList.filter (fun c =>
    (('a' ≤ c && c ≤ 'z') || ('A' ≤ c && c ≤ 'Z') || ('0' ≤ c && c ≤ '9'))
    || isSpaceChar c))).map Char.toLower)

/-- `GeminiVision.isNewObject`: unconditionally a new subject when no
subject is active (falsy `currentObject`), otherwise a transition exactly
when the normalized labels differ. -/
def isNewObject (currentObject : Option String) (detectedObject : String) : Bool :=
  match currentObject with
  | none => true
  | some cur =>
    if cur = "" then true
    else !(normalizeLabel cur == normalizeLabel detectedObject)

/-- Claim C7 as stated is refuted at the label pair "coffee_mug" versus
"coffeemug": stripping all non-alphanumeric non-whitespace characters (the
claimed normalization) makes the labels identical, yet the code keeps the
underscore (JS `\w` includes it) and reports a transition. -/
theorem subjectTracker_normalize_counterexample :
    specNormalize "coffee_mug" = specNormalize "coffeemug" ∧
    isNewObject (some "coffeemug") "coffee_mug" = true := by
  constructor
  · rfl
  · rfl

/-- Claim C7 (amended): `isNewObject` normalizes both labels by stripping
characters outside the JS word class (ASCII alphanumerics and underscore)
and whitespace, trimming, and case-folding, and reports a transition exactly
when the normalized labels differ, or unconditionally when no subject is
active; "☕ Coffee Mug" versus "coffee mug" is judged identical and
"Coffee Mug" versus "Keyboard" is judged a transition. -/
theorem subjectTracker_normalized_transition :
    (∀ (d : String), isNewObject none d = true) ∧
    (∀ (cur d : String), ¬ cur = "" →
      (isNewObject (some cur) d = true ↔ ¬ normalizeLabel cur = normalizeLabel d)) ∧
    isNewObject (some "☕ Coffee Mug") "coffee mug" = false ∧
    isNewObject (some "Coffee Mug") "Keyboard" = true := by
  refine ⟨fun d => rfl, ?_, by rfl, by rfl⟩
  intro cur d hne
  unfold isNewObject
  dsimp only
  rw [if_neg hne]
  rw [Bool.not_eq_true']
  rw [beq_eq_false_iff_ne]

/-- Concrete instance of the amended claim C7: an active subject compared
with its own label is not a transition. -/
theorem subjectTracker_normalized_transition_witness :
    isNewObject (some "Mug") "Mug" = false := by
  have h := subjectTracker_normalized_transition.2.1 "Mug" "Mug" (by decide)
  rcases hb : isNewObject (some "Mug") "Mug" with _ | _
  · rfl
  · exact absurd (h.mp hb) (by simp)

/-! ## GeminiVision.parseResponse (src/utils/geminiAPI.js)

`parseResponse` scans the trimmed text line by line: an `OBJECT:` line
(re)binds the parsed object to the rest of the line trimmed, a `SPEECH:`
line (re)binds the response; the response is initialised to the whole
original text.  A falsy parsed object (never assigned, or assigned the
empty string) is replaced by the falsy-guarded `currentObject` or the
placeholder.  The cleanup regex `/^(OBJECT:|SPEECH:)/gi` has no multiline
flag, so it strips at most one tag, case-insensitively, at the very start
of the string; an empty cleaned-up response is replaced by a fixed
utterance.  The function is total: it never throws.  Strings are handled
as character lists internally; under the `startsWith` guard,
`line.replace('OBJECT:', '')` removes exactly the 7-character tag at
position 0.
-/

/-- JS `text.split('\n')`: split at every newline, keeping empty segments
(the JS split of the empty string is `[""]`). -/
def splitLinesChars : List Char → List (List Char)
  | [] => [[]]
  | c :: rest =>
    match splitLinesChars rest with
    | [] => [[]]
    | line :: lines =>
      if c = '\n' then [] :: line :: lines else (c :: line) :: lines

/-- JS `line.startsWith(tag)` for a 7-character tag is a prefix comparison. -/
def startsWithChars (tag s : List Char) : Bool :=
  s.take tag.length = tag

/-- One line of the parse loop: `OBJECT:` lines rebind the object,
`SPEECH:` lines rebind the response, other lines change nothing. -/
def parseLoopStep (acc : Option (List Char) × List Char) (line : List Char) :
    Option (List Char) × List Char :=
  if startsWithChars "OBJECT:".toList line then
    (some (jsTrimChars (line.drop 7)), acc.2)
  else if startsWithChars "SPEECH:".toList line then
    (acc.1, jsTrimChars (line.drop 7))
  else
    acc

/-- The line-scanning loop of `parseResponse`, starting from no parsed
object and the whole original text as response. -/
def parseLoop (lines : List (List Char)) (text : List Char) :
    Option (List Char) × List Char :=
  lines.foldl parseLoopStep (none, text)

/-- The fallback for a falsy parsed object:
`this.currentObject || '📦 Mysterious Object'`. -/
def objFallback (currentObject : Option (List Char)) : List Char :=
  match currentObject with
  | none => "📦 Mysterious Object".toList
  | some s => if s = [] then "📦 Mysterious Object".toList else s

/-- The cleanup regex `/^(OBJECT:|SPEECH:)/gi`: with no multiline flag the
anchor matches only position 0, so at most one leading tag is removed,
case-insensitively. -/
def stripLeadingTag (s : List Char) : List Char :=
  if (s.take 7).map Char.toLower = "object:".toList
      ∨ (s.take 7).map Char.toLower = "speech:".toList then
    s.drop 7
  else
    s

/-- The object component of `parseResponse`. -/
def parsedObject (currentObject : Option (List Char)) (text : List Char) :
    List Char :=
  match (parseLoop (splitLinesChars (jsTrimChars text)) text).1 with
  | none => objFallback currentObject
  | some o => if o = [] then objFallback currentObject else o

/-- The utterance component of `parseResponse`, after cleanup and the
empty-utterance substitution. -/
def parsedSpeech (text : List Char) : List Char :=
  if jsTrimChars (stripLeadingTag
      (parseLoop (splitLinesChars (jsTrimChars text)) text).2) = [] then
    "I\x27m here!".toList
  else
    jsTrimChars (stripLeadingTag
      (parseLoop (splitLinesChars (jsTrimChars text)) text).2)

/-- `GeminiVision.parseResponse`: the parsed object identity and utterance. -/
def parseResponse (currentObject : Option (List Char)) (text : List Char) :
    List Char × List Char :=
  (parsedObject currentObject text, parsedSpeech text)

lemma parseLoop_no_object :
    ∀ (lines : List (List Char)) (acc : Option (List Char) × List Char),
    (∀ l ∈ lines, ¬ startsWithChars "OBJECT:".toList l = true) →
    (lines.foldl parseLoopStep acc).1 = acc.1 := by
  intro lines
  induction lines with
  | nil => intro acc _; rfl
  | cons l rest ih =>
    intro acc hno
    have hstep : (parseLoopStep acc l).1 = acc.1 := by
      unfold parseLoopStep
      rw [if_neg (hno l (by simp))]
      split
      · rfl
      · rfl
    calc ((l :: rest).foldl parseLoopStep acc).1
        = (rest.foldl parseLoopStep (parseLoopStep acc l)).1 := rfl
      _ = (parseLoopStep acc l).1 := ih _ (fun u hu => hno u (by simp [hu]))
      _ = acc.1 := hstep

lemma objFallback_ne_empty (currentObject : Option (List Char)) :
    ¬ objFallback currentObject = [] := by
  unfold objFallback
  rcases currentObject with _ | s
  · decide
  · dsimp only
    split
    · decide
    · assumption

/-- Claim C9: for every inference output text and remembered current object,
`parseResponse` totally computes a pair of a non-empty object identity and a
non-empty utterance; when no line parses as an `OBJECT:` line the object is
the remembered current object or the placeholder, and when the utterance is
empty after cleanup the fixed utterance is substituted. -/
theorem parseResponse_always_nonempty :
    ∀ (currentObject : Option (List Char)) (text : List Char),
    ¬ (parseResponse currentObject text).1 = [] ∧
    ¬ (parseResponse currentObject text).2 = [] ∧
    ((∀ l ∈ splitLinesChars (jsTrimChars text),
        ¬ startsWithChars "OBJECT:".toList l = true) →
      (parseResponse currentObject text).1 = objFallback currentObject) ∧
    (jsTrimChars (stripLeadingTag
        (parseLoop (splitLinesChars (jsTrimChars text)) text).2) = [] →
      (parseResponse currentObject text).2 = "I\x27m here!".toList) := by
  intro currentObject text
  have hdef : parseResponse currentObject text
      = (parsedObject currentObject text, parsedSpeech text) := rfl
  rw [hdef]
  dsimp only
  refine ⟨?_, ?_, ?_, ?_⟩
  · unfold parsedObject
    rcases (parseLoop (splitLinesChars (jsTrimChars text)) text).1 with _ | o
    · exact objFallback_ne_empty currentObject
    · dsimp only
      split
      · exact objFallback_ne_empty currentObject
      · assumption
  · unfold parsedSpeech
    split
    · decide
    · assumption
  · intro hno
    unfold parsedObject
    rw [show (parseLoop (splitLinesChars (jsTrimChars text)) text).1 = none from
      parseLoop_no_object (splitLinesChars (jsTrimChars text)) (none, text) hno]
  · intro hempty
    unfold parsedSpeech
    rw [if_pos hempty]

/-- Concrete instance of claim C9: the empty text yields the placeholder
object and the fixed utterance, and plain text with no tag lines keeps a
non-empty utterance and the placeholder object. -/
theorem parseResponse_always_nonempty_witness :
    (parseResponse none []).1 = "📦 Mysterious Object".toList ∧
    (parseResponse none []).2 = "I\x27m here!".toList ∧
    ¬ (parseResponse none "hello".toList).2 = [] := by
  have h1 := (parseResponse_always_nonempty none []).2.2.1 (by decide)
  have h2 := (parseResponse_always_nonempty none []).2.2.2 (by decide)
  have h3 := (parseResponse_always_nonempty none "hello".toList).2.1
  exact ⟨by rw [h1]; rfl, h2, h3⟩

/-! ## ObjectDetector.findObjectBounds (objectDetector module)

`findObjectBounds` receives the 0/255 edge map produced by the Sobel stage
for the downsampled working canvas and scans it row-major.  An edge pixel
qualifies when its centrality weight `1 - dist/maxDist` strictly exceeds
0.3; qualifying pixels accumulate their weight into `edgeCount` and the
weighted coordinate sums, and extend the min/max bounds.  When the
accumulated weight stays below 10 the function returns the fixed central
fallback box (25 to 75 percent of each axis) instead of no result.  The
floating-point geometry is modelled over `ℝ`; `Math.max(0, n - padding)` on
the non-negative pixel coordinates coincides with truncated `Nat`
subtraction, and `Math.min` with `min`.
-/

structure ObjectBounds where
  x : ℝ
  y : ℝ
  width : ℝ
  height : ℝ
  centerX : ℝ
  centerY : ℝ

/-- Centrality weight of pixel `(x, y)`:
`1 - distFromCenter / maxDist` with both distances Euclidean. -/
noncomputable def pixelWeight (width height x y : Nat) : ℝ :=
  let centerX : ℝ := (width : ℝ) / 2
  let centerY : ℝ := (height : ℝ) / 2
  let distX : ℝ := |(x : ℝ) - centerX|
  let distY : ℝ := |(y : ℝ) - centerY|
  let distFromCenter : ℝ := Real.sqrt (distX * distX + distY * distY)
  let maxDist : ℝ := Real.sqrt (centerX * centerX + centerY * centerY)
  1 - distFromCenter / maxDist

/-- Accumulator of the scan loop: running bounds, accumulated weight, and
weighted coordinate sums. -/
structure ScanState where
  minX : Nat
  minY : Nat
  maxX : Nat
  maxY : Nat
  edgeCount : ℝ
  wSumX : ℝ
  wSumY : ℝ

/-- One pixel of the scan: a set edge pixel whose centrality weight exceeds
0.3 updates the bounds and accumulates its weight. -/
noncomputable def scanPixel (width height : Nat) (edges : List Nat)
    (s : ScanState) (i : Nat) : ScanState :=
  if 0 < edges.getD i 0 then
    if (3 : ℝ) / 10 < pixelWeight width height (i % width) (i / width) then
      { minX := min s.minX (i % width)
        minY := min s.minY (i / width)
        maxX := max s.maxX (i % width)
        maxY := max s.maxY (i / width)
        edgeCount := s.edgeCount + pixelWeight width height (i % width) (i / width)
        wSumX := s.wSumX + (i % width : ℝ) * pixelWeight width height (i % width) (i / width)
        wSumY := s.wSumY + (i / width : ℝ) * pixelWeight width height (i % width) (i / width) }
    else s
  else s

/-- The full row-major scan over the edge map. -/
noncomputable def scanEdges (width height : Nat) (edges : List Nat) : ScanState :=
  (List.range (width * height)).foldl (scanPixel width height edges)
    ⟨width, height, 0, 0, 0, 0, 0⟩

/-- The fixed central fallback region: 25 to 75 percent of each axis with a
centered centroid. -/
noncomputable def fallbackBounds (width height : Nat) : ObjectBounds :=
  { x := (width : ℝ) * 0.25
    y := (height : ℝ) * 0.25
    width := (width : ℝ) * 0.5
    height := (height : ℝ) * 0.5
    centerX := (width : ℝ) / 2
    centerY := (height : ℝ) / 2 }

/-- `ObjectDetector.findObjectBounds`: scan the edge map; if the accumulated
qualifying weight is below 10, return the fallback region, otherwise the
padded bounding box with the weighted centroid. -/
noncomputable def findObjectBounds (width height : Nat) (edges : List Nat) :
    ObjectBounds :=
  let s := scanEdges width height edges
  if s.edgeCount < 10 then
    fallbackBounds width height
  else
    { x := ((s.minX - 20 : Nat) : ℝ)
      y := ((s.minY - 20 : Nat) : ℝ)
      width := ((min width (s.maxX + 20) : Nat) : ℝ) - ((s.minX - 20 : Nat) : ℝ)
      height := ((min height (s.maxY + 20) : Nat) : ℝ) - ((s.minY - 20 : Nat) : ℝ)
      centerX := s.wSumX / s.edgeCount
      centerY := s.wSumY / s.edgeCount }

lemma scanPixel_zero (width height : Nat) (edges : List Nat) (s : ScanState)
    (i : Nat) (hz : edges.getD i 0 = 0) :
    scanPixel width height edges s i = s := by
  unfold scanPixel
  rw [hz]
  rw [if_neg (by omega)]

lemma foldl_scanPixel_zero (width height : Nat) (edges : List Nat) :
    ∀ (l : List Nat) (s : ScanState), (∀ i ∈ l, edges.getD i 0 = 0) →
    l.foldl (scanPixel width height edges) s = s := by
  intro l
  induction l with
  | nil => intro s _; rfl
  | cons i rest ih =>
    intro s hz
    calc ((i :: rest).foldl (scanPixel width height edges) s)
        = rest.foldl (scanPixel width height edges) (scanPixel width height edges s i) := rfl
      _ = scanPixel width height edges s i := ih _ (fun u hu => hz u (by simp [hu]))
      _ = s := scanPixel_zero width height edges s i (hz i (by simp))

lemma replicate_zero_getD : ∀ (n i : Nat), (List.replicate n (0 : Nat)).getD i 0 = 0 := by
  intro n
  induction n with
  | zero => intro i; simp [List.getD]
  | succ n ih =>
    intro i
    cases i with
    | zero => rfl
    | succ j =>
      rw [List.replicate_succ, List.getD_cons_succ]
      exact ih j

/-- Claim C8: whenever the scan accumulates fewer than the minimum 10 units
of qualifying center-weighted edge evidence, `findObjectBounds` returns the
fixed central fallback box — x and y at 25 percent of width and height,
extent half of each axis, centroid at the frame center — rather than no
result. -/
theorem objectLocator_fallback_box :
    ∀ (width height : Nat) (edges : List Nat),
    (scanEdges width height edges).edgeCount < 10 →
    findObjectBounds width height edges = fallbackBounds width height ∧
    fallbackBounds width height =
      ⟨(width : ℝ) / 4, (height : ℝ) / 4, (width : ℝ) / 2, (height : ℝ) / 2,
        (width : ℝ) / 2, (height : ℝ) / 2⟩ := by
  intro width height edges hlow
  constructor
  · unfold findObjectBounds
    rw [if_pos hlow]
  · unfold fallbackBounds
    congr 1 <;> ring

/-- Concrete instance of claim C8: an all-zero 4-by-4 edge map accumulates
no qualifying weight and yields the central fallback box. -/
theorem objectLocator_fallback_box_witness :
    (scanEdges 4 4 (List.replicate 16 0)).edgeCount < 10 ∧
    findObjectBounds 4 4 (List.replicate 16 0) = fallbackBounds 4 4 := by
  have hzero : scanEdges 4 4 (List.replicate 16 0) = ⟨4, 4, 0, 0, 0, 0, 0⟩ := by
    unfold scanEdges
    exact foldl_scanPixel_zero 4 4 (List.replicate 16 0) (List.range (4 * 4))
      ⟨4, 4, 0, 0, 0, 0, 0⟩ (fun i _ => replicate_zero_getD 16 i)
  have hlow : (scanEdges 4 4 (List.replicate 16 0)).edgeCount < 10 := by
    rw [hzero]
    norm_num
  exact ⟨hlow, (objectLocator_fallback_box 4 4 (List.replicate 16 0) hlow).1⟩
